import Mathlib

/-!
Verification development for the QR-code raster compositor
(`src/qr_code_app.py`).  The Python source renders a boolean module grid
into a pixel image with PIL and optionally composites a logo with one of
three background treatments.  This file gives a shallow embedding of
`hex_to_rgb` and `create_qr_image` (lines 10-119 of the source) and
settles the specification claims against it.

Modelling conventions:
* A PIL image is an `Img`: a mode tag (RGB/RGBA), dimensions, and total
  pixel/alpha functions; only indices below the dimensions are meaningful.
* Machine floats in the source are modelled by exact rationals/reals.
  Where a float expression provably rounds to the same integer as the
  exact value for all relevant inputs (`int(min(size)*0.2)`,
  `int(max(size)*1.2)`, `int(module_size*0.75)`, `int(image_size*ratio)`),
  we use the exact integer form and justify it in a comment.
* PIL's crisp (non-anti-aliased) shape fills are modelled by exact
  lattice membership tests: `draw.ellipse((x0,y0,x1,y1), fill=...)`
  paints integer points (px,py) of the bounding box satisfying
  ((2px-(x0+x1))/(x1-x0))^2 + ((2py-(y0+y1))/(y1-y0))^2 <= 1, and
  `draw.rounded_rectangle` paints the box minus the four corner squares
  outside quarter discs of the given radius.
* `draw.ellipse` called with an inverted bounding box (x1 < x0) raises
  `ValueError` before anything is drawn: the coordinate check exists
  since Pillow 8.2.0, and line 42's `Image.Resampling` requires
  Pillow >= 9.1.0, so every Pillow this code runs on has it.  The
  Radial Gradient ring loop (line 74) passes such boxes for every
  i > (grad_size-1)/2, so the exception aborts `create_qr_image` before
  the disc is pasted; accordingly the pipeline's image result is an
  `Option Img` which is `none` exactly on that raising path
  (`gradRingStep` checks the box before painting a ring).  The shape
  and frame mask boxes `(0,0,w,h)` are never inverted.
* `Image.paste(src, pos, mask)` with the binary (0/255) masks produced
  here replaces covered pixels; pasting an RGBA image as its own mask
  (the final flatten, lines 113-117) blends with PIL's MULDIV255
  fixed-point source-over formula, reproduced bit-exactly in `muldiv255`.
-/

namespace QrGen

/-- An RGB channel triple (each channel nominally 0-255). -/
abbrev Color := ℕ × ℕ × ℕ

/-- The abstract module grid produced by the external encoder
(`qr.get_size()` / `qr.get_module(x, y)`). -/
structure ModuleGrid where
  size : ℕ
  get : ℕ → ℕ → Bool

/-- PIL image mode: `"RGB"` or `"RGBA"`. -/
inductive PixMode | rgb | rgba
deriving DecidableEq

/-- `logo_options["shape"]`: `"Square"`, `"Circle"`, `"Rounded Rectangle"`. -/
inductive Shape | square | circle | roundedRect
deriving DecidableEq

/-- `logo_options["background_style"]`: `"Solid"`, `"Gradient Halo"`,
`"Radial Gradient"`.  Any other string behaves like `Solid` in the code
(no branch matches); the three constructors cover the app's choices. -/
inductive BgStyle | solid | gradientHalo | radialGradient
deriving DecidableEq

/-- The `logo_options` dict with the defaults of the `.get` calls applied
(`size` default 0.25, `shape` default Square, `border` default False). -/
structure LogoOptions where
  sizeFrac : ℚ
  shape : Shape
  bgStyle : BgStyle
  hasBorder : Bool

/-- A PIL image: mode, dimensions, pixel channels and alpha band.
For an RGB image the alpha band is the constant 255 and is never
consulted. -/
structure Img where
  mode : PixMode
  width : ℕ
  height : ℕ
  px : ℕ → ℕ → Color
  alpha : ℕ → ℕ → ℕ

/-- Membership of pixel `(px,py)` in the `module_size × module_size`
block of module `(mx,my)`, whose top-left corner is
`((mx+border)*module_size, (my+border)*module_size)` (line 36). -/
def inModuleBlock (m b mx my px py : ℕ) : Prop :=
  (mx + b) * m ≤ px ∧ px < (mx + b) * m + m ∧
  (my + b) * m ≤ py ∧ py < (my + b) * m + m

instance instDecInModuleBlock (m b mx my px py : ℕ) :
    Decidable (inModuleBlock m b mx my px py) := by
  unfold inModuleBlock; infer_instance

/-- Lines 34-36: the inner `dy`/`dx` loops write `dark_color` to every
pixel of the block of module `(mx,my)`. -/
def blockWrite (m b : ℕ) (dark : Color) (mx my : ℕ) (img : Img) : Img :=
  { img with px := fun px py =>
      if inModuleBlock m b mx my px py then dark else img.px px py }

/-- Lines 31-36: loop over all modules, filling the block of each dark
module with `dark_color`. -/
def rasterModules (qr : ModuleGrid) (m b : ℕ) (dark : Color) (img0 : Img) : Img :=
  (List.range qr.size).foldl
    (fun imgY y =>
      (List.range qr.size).foldl
        (fun imgX x => if qr.get x y then blockWrite m b dark x y imgX else imgX)
        imgY)
    img0

/-- PIL's fixed-point `MULDIV255(a, b)` = round(a*b/255) as computed in
`Paste.c`: `tmp = a*b + 128; (tmp + (tmp >> 8)) >> 8`. -/
def muldiv255 (a b : ℕ) : ℕ := (a * b + 128 + (a * b + 128) / 256) / 256

/-- One channel of PIL source-over blending of source `s` over
destination `d` with mask/alpha value `a`. -/
def blendChannel (d s a : ℕ) : ℕ := muldiv255 d (255 - a) + muldiv255 s a

/-- Source-over blending of a source color over a destination color. -/
def blendColor (d s : Color) (a : ℕ) : Color :=
  (blendChannel d.1 s.1 a, blendChannel d.2.1 s.2.1 a, blendChannel d.2.2 s.2.2 a)

/-- `img.paste(src, (ox, oy), mask)` where `mask` is one of the binary
(0/255-valued) masks built in the source: covered destination pixels take
the source pixel; an RGB source pasted onto an RGBA canvas contributes
alpha 255 (PIL mode conversion).  Pixels outside the source rectangle are
untouched (PIL clips). -/
def pasteB (dst src : Img) (ox oy : ℤ) (mask : ℕ → ℕ → Bool) : Img :=
  { dst with
    px := fun x y =>
      if 0 ≤ (x : ℤ) - ox ∧ (x : ℤ) - ox < src.width ∧
         0 ≤ (y : ℤ) - oy ∧ (y : ℤ) - oy < src.height ∧
         mask ((x : ℤ) - ox).toNat ((y : ℤ) - oy).toNat = true
      then src.px ((x : ℤ) - ox).toNat ((y : ℤ) - oy).toNat
      else dst.px x y
    alpha := fun x y =>
      if 0 ≤ (x : ℤ) - ox ∧ (x : ℤ) - ox < src.width ∧
         0 ≤ (y : ℤ) - oy ∧ (y : ℤ) - oy < src.height ∧
         mask ((x : ℤ) - ox).toNat ((y : ℤ) - oy).toNat = true
      then (if src.mode = .rgba then src.alpha ((x : ℤ) - ox).toNat ((y : ℤ) - oy).toNat else 255)
      else dst.alpha x y }

/-- Line 62: `img.putalpha(...)` replaces the alpha band. -/
def putalphaImg (img : Img) (mask : ℕ → ℕ → ℕ) : Img :=
  { img with mode := .rgba, alpha := mask }

/-- Squared distance (times 4) of pixel `(x,y)` from the image center
`(s/2, s/2)` (line 50: `center = image_size / 2`, a float):
`(2x - s)^2 + (2y - s)^2 = (2*(x - s/2))^2 + (2*(y - s/2))^2`. -/
def distSqN (s x y : ℕ) : ℕ := (((2 * x : ℤ) - s) ^ 2 + ((2 * y : ℤ) - s) ^ 2).toNat

/-- Lines 50-60: the halo alpha mask.  With `inner = maxdim/2`,
`outer = inner + 2*module_size` and `d = sqrt(distSqN)/2`, the numpy code
leaves 255 outside the annulus, writes
`uint8(255*(d - inner)/(outer - inner))` (truncation = floor of a
non-negative value < 255) strictly inside it, and writes 0 for
`d ≤ inner`.  In integers, with `N = 4d^2`, `I = maxdim`,
`O = maxdim + 4*module_size` (so the fade denominator `outer - inner`
is `(O - I)/2 = 2*module_size`):
`⌊255*(d - inner)/(outer - inner)⌋ = ⌊(255*√N - 255*I)/(O - I)⌋
 = (Nat.sqrt (255^2 * N) - 255*I) / (O - I)`;
this equivalence is proved in `haloAlphaN_eq_floor` below. -/
def haloAlphaN (s maxdim m : ℕ) : ℕ → ℕ → ℕ := fun x y =>
  let N := distSqN s x y
  if N ≤ maxdim ^ 2 then 0
  else if N < (maxdim + 4 * m) ^ 2 then
    (Nat.sqrt (65025 * N) - 255 * maxdim) / (4 * m)
  else 255

/-- Lines 71-73: one channel of a gradient ring,
`int(light*ratio + dark*(1 - ratio))` with `ratio = i / grad_size`
(truncation of a non-negative float = floor). -/
def ringChannel (l d : ℕ) (gs i : ℕ) : ℕ :=
  (⌊(l : ℚ) * ((i : ℚ) / gs) + (d : ℚ) * (1 - (i : ℚ) / gs)⌋).toNat

/-- The full ring color `(r, g, b)` of ring `i` (lines 70-74). -/
def ringColor (light dark : Color) (gs i : ℕ) : Color :=
  (ringChannel light.1 dark.1 gs i,
   ringChannel light.2.1 dark.2.1 gs i,
   ringChannel light.2.2 dark.2.2 gs i)

/-- Crisp membership of lattice point `(px,py)` in the filled PIL ellipse
of bounding box `(x0,y0,x1,y1)`.  Only proper (non-inverted) boxes reach
this test: an inverted box raises `ValueError` in the draw wrapper,
which is modelled separately (`gradRingStep`). -/
def ellipseCovers (x0 y0 x1 y1 px py : ℤ) : Bool :=
  decide (x0 ≤ px ∧ px ≤ x1 ∧ y0 ≤ py ∧ py ≤ y1 ∧
    (2 * px - (x0 + x1)) ^ 2 * (y1 - y0) ^ 2 + (2 * py - (y0 + y1)) ^ 2 * (x1 - x0) ^ 2
      ≤ (x1 - x0) ^ 2 * (y1 - y0) ^ 2)

/-- One iteration of the radial-gradient ring loop (lines 69-74): ring
`i` is `draw.ellipse((i, i, gs-1-i, gs-1-i), fill=ringColor i)` on the
buffer.  `ImageDraw.ellipse` first checks the bounding box and raises
`ValueError` when `x1 < x0` (i.e. `gs - 1 - i < i`; both coordinate
pairs are equal here), which aborts the whole render; the raise is
modelled as `none`, and a `none` accumulator is absorbing (nothing runs
after an exception).  Otherwise the ring's filled ellipse overpaints the
buffer's pixel function. -/
def gradRingStep (light dark : Color) (gs : ℕ) (acc : Option (ℕ → ℕ → Color)) (i : ℕ) :
    Option (ℕ → ℕ → Color) :=
  match acc with
  | none => none
  | some f =>
    if (gs : ℤ) - 1 - (i : ℤ) < (i : ℤ) then none
    else some (fun px py =>
      if ellipseCovers (i : ℤ) (i : ℤ) ((gs : ℤ) - 1 - (i : ℤ)) ((gs : ℤ) - 1 - (i : ℤ))
           (px : ℤ) (py : ℤ) = true
      then ringColor light dark gs i else f px py)

/-- Lines 65-74: the radial-gradient square buffer's pixel function.
`Image.new("RGB", ...)` with no color initializes to black `(0,0,0)`;
rings are drawn for `i = 0, 1, ..., gs-1` in order.  The result is
`none` when some iteration raises `ValueError` on an inverted box —
which happens for every `gs ≥ 2` (`gradDiscLoop_none`), so the loop
only completes for degenerate buffers. -/
def gradDiscLoop (light dark : Color) (gs : ℕ) : Option (ℕ → ℕ → Color) :=
  (List.range gs).foldl (gradRingStep light dark gs) (some (fun _ _ => (0, 0, 0)))

/-- Crisp membership in the filled PIL rounded rectangle of box
`(0,0,w,h)` with corner radius `r`: inside the box, and inside the
quarter disc at each of the four rounded corners. -/
def roundedCovers (w h r px py : ℤ) : Bool :=
  decide (0 ≤ px ∧ px ≤ w ∧ 0 ≤ py ∧ py ≤ h ∧
    (px < r ∧ py < r → (px - r) ^ 2 + (py - r) ^ 2 ≤ r ^ 2) ∧
    (w - r < px ∧ py < r → (px - (w - r)) ^ 2 + (py - r) ^ 2 ≤ r ^ 2) ∧
    (px < r ∧ h - r < py → (px - r) ^ 2 + (py - (h - r)) ^ 2 ≤ r ^ 2) ∧
    (w - r < px ∧ h - r < py → (px - (w - r)) ^ 2 + (py - (h - r)) ^ 2 ≤ r ^ 2))

/-- Lines 81-89 (and identically lines 96-105 for the border frame): the
shape mask for a `(w,h)` rectangle.  The draw calls use the bounding box
`(0, 0) + size = (0, 0, w, h)` — note the right/bottom coordinates are
`w, h`, one past the last pixel index `w-1, h-1` of the mask buffer.
The rounded-rectangle radius is `int(min(w,h) * 0.2)`; since the float
product `min*0.2` always truncates to `⌊min/5⌋` (0.2's binary
representation is slightly above 1/5 and the excess is below one ulp),
it is modelled as `min w h / 5`. -/
def shapeMask (sh : Shape) (w h : ℕ) : ℕ → ℕ → Bool := fun px py =>
  match sh with
  | .circle => ellipseCovers 0 0 (w : ℤ) (h : ℤ) (px : ℤ) (py : ℤ)
  | .roundedRect => roundedCovers (w : ℤ) (h : ℤ) ((min w h / 5 : ℕ) : ℤ) (px : ℤ) (py : ℤ)
  | .square => decide ((px : ℤ) ≤ (w : ℤ) ∧ (py : ℤ) ≤ (h : ℤ))

/-- Line 93: `border_width = max(1, int(module_size * 0.75))`; 0.75 is
binary-exact so the float truncation is exactly `⌊3*m/4⌋`. -/
def border_width (m : ℕ) : ℕ := max 1 (m * 3 / 4)

/-- Line 94: `border_frame_size = (logo.width + border_width*2,
logo.height + border_width*2)`. -/
def border_frame_size (lw lh m : ℕ) : ℕ × ℕ :=
  (lw + border_width m * 2, lh + border_width m * 2)

/-- Line 107: the border frame rectangle, filled with `dark_color`, in
the canvas's mode (`Image.new` with an RGB fill gives alpha 255). -/
def frameImg (md : PixMode) (dark : Color) (fw fh : ℕ) : Img :=
  { mode := md, width := fw, height := fh, px := fun _ _ => dark, alpha := fun _ _ => 255 }

/-- Lines 92-108: if a border is requested, build the frame mask with
the same shape-mask generator at the frame size and paste the dark
frame, offset outward by `border_width` from the logo position;
otherwise leave the canvas unchanged. -/
def withFrame (img2 : Img) (dark : Color) (sh : Shape) (lw lh m : ℕ)
    (lX lY : ℤ) (hasB : Bool) : Img :=
  if hasB then
    pasteB img2
      (frameImg img2.mode dark (border_frame_size lw lh m).1 (border_frame_size lw lh m).2)
      (lX - border_width m) (lY - border_width m)
      (shapeMask sh (border_frame_size lw lh m).1 (border_frame_size lw lh m).2)
  else img2

/-- Pillow `Image.thumbnail` size computation (`preserve_aspect_ratio`):
with requested size `(lms, lms)`, no-op when both dimensions already fit;
otherwise the binding axis is set to `lms` and the other axis to the
floor or ceiling of the exact aspect-preserving value, whichever better
approximates the aspect (floor preferred on ties), clamped to at least 1.
The float `aspect = w/h` is modelled by the exact rational. -/
def roundAspectX (q aspect : ℚ) (y : ℕ) : ℕ :=
  max (if |aspect - (⌊q⌋.toNat : ℚ) / y| ≤ |aspect - (⌈q⌉.toNat : ℚ) / y|
       then ⌊q⌋.toNat else ⌈q⌉.toNat) 1

/-- The other-axis rounding used on the `y` branch of Pillow's
`thumbnail` (its key maps 0 to 0 instead of dividing by 0). -/
def roundAspectY (q aspect : ℚ) (x : ℕ) : ℕ :=
  max
    (if (if ⌊q⌋.toNat = 0 then (0 : ℚ) else |aspect - (x : ℚ) / (⌊q⌋.toNat : ℚ)|)
         ≤ (if ⌈q⌉.toNat = 0 then (0 : ℚ) else |aspect - (x : ℚ) / (⌈q⌉.toNat : ℚ)|)
     then ⌊q⌋.toNat else ⌈q⌉.toNat) 1

/-- Line 42: the new dimensions produced by
`logo_image.thumbnail((lms, lms), LANCZOS)` (an in-place mutation of the
caller's image). -/
def thumbnailDims (w h lms : ℕ) : ℕ × ℕ :=
  if lms ≥ w ∧ lms ≥ h then (w, h)
  else if (lms : ℚ) / (lms : ℚ) ≥ (w : ℚ) / (h : ℚ) then
    (roundAspectX ((lms : ℚ) * ((w : ℚ) / (h : ℚ))) ((w : ℚ) / (h : ℚ)) lms, lms)
  else
    (lms, roundAspectY ((lms : ℚ) / ((w : ℚ) / (h : ℚ))) ((w : ℚ) / (h : ℚ)) lms)

/-- The resized logo.  The claims depend only on the dimensions and on
the fact that pasting copies the resized pixels verbatim, not on the
LANCZOS kernel (floating-point library code); pixel content is modelled
by index scaling. -/
def resizeImg (src : Img) (d : ℕ × ℕ) : Img :=
  { src with
    width := d.1
    height := d.2
    px := fun x y => src.px (x * src.width / max d.1 1) (y * src.height / max d.2 1)
    alpha := fun x y => src.alpha (x * src.width / max d.1 1) (y * src.height / max d.2 1) }

/-- Lines 113-119: if the canvas is RGBA, flatten it onto an opaque RGB
canvas filled with `light_color` by pasting it over itself as its own
mask (source-over with its alpha band); otherwise return it unchanged. -/
def finalize (img : Img) (light : Color) : Img :=
  if img.mode = .rgba then
    { mode := .rgb, width := img.width, height := img.height,
      px := fun x y => blendColor light (img.px x y) (img.alpha x y),
      alpha := fun _ _ => 255 }
  else img

/-- Lines 24-28: the base canvas — RGBA when the background style is
`"Gradient Halo"` (the halo needs an alpha channel), RGB otherwise, in
both cases filled with `light_color` (alpha 255). -/
def baseCanvas (S : ℕ) (light : Color) (bg : BgStyle) : Img :=
  if bg = .gradientHalo then
    { mode := .rgba, width := S, height := S, px := fun _ _ => light, alpha := fun _ _ => 255 }
  else
    { mode := .rgb, width := S, height := S, px := fun _ _ => light, alpha := fun _ _ => 255 }

/-- Lines 48-75: the background treatment for the logo area.  Solid
leaves the canvas alone; Gradient Halo installs the fade alpha mask;
Radial Gradient draws the ring buffer (a `none` result models the
`ValueError` the ring loop raises on an inverted box, which aborts the
render) and pastes it centered, with no mask (full replacement in the
buffer rectangle, line 75). -/
def bgTreat (img1 : Img) (light dark : Color) (bg : BgStyle) (S maxd m : ℕ) : Option Img :=
  match bg with
  | .gradientHalo => some (putalphaImg img1 (haloAlphaN S maxd m))
  | .radialGradient =>
    (gradDiscLoop light dark (6 * maxd / 5)).map (fun f =>
      pasteB img1
        { mode := .rgb, width := 6 * maxd / 5, height := 6 * maxd / 5,
          px := f, alpha := fun _ _ => 255 }
        (Int.fdiv ((S : ℤ) - ((6 * maxd / 5 : ℕ) : ℤ)) 2)
        (Int.fdiv ((S : ℤ) - ((6 * maxd / 5 : ℕ) : ℤ)) 2)
        (fun _ _ => true))
  | .solid => some img1

/-- Lines 77-119 after the background treatment: the frame paste (if a
border is requested), the unconditional final logo paste through its
shape mask, and the RGBA-to-RGB flatten. -/
def logoStage (img2 lg : Img) (dark : Color) (sh : Shape) (dims : ℕ × ℕ)
    (m : ℕ) (lX lY : ℤ) (hasB : Bool) (light : Color) : Img :=
  finalize (pasteB (withFrame img2 dark sh dims.1 dims.2 m lX lY hasB)
    (resizeImg lg dims) lX lY (shapeMask sh dims.1 dims.2)) light

/-- Lines 15-119: the full rendering pipeline.  The first component is
the returned image, `none` when the render raises (the Radial Gradient
ring loop's `ValueError`; the app's generic `except` then shows an error
and no image exists).  The second component is the post-`thumbnail`
dimensions of the caller's logo object (the in-place mutation of line
42, which precedes any possible raise), `none` when no logo was
passed. -/
def create_qr_image (qr : ModuleGrid) (module_size b : ℕ) (light dark : Color)
    (logo : Option Img) (opts : LogoOptions) : Option Img × Option (ℕ × ℕ) :=
  let S := (qr.size + b * 2) * module_size
  let img1 := rasterModules qr module_size b dark (baseCanvas S light opts.bgStyle)
  match logo with
  | none => (some (finalize img1 light), none)
  | some lg =>
    let lms := (⌊(S : ℚ) * opts.sizeFrac⌋).toNat
    let dims := thumbnailDims lg.width lg.height lms
    let logoX : ℤ := Int.fdiv ((S : ℤ) - dims.1) 2
    let logoY : ℤ := Int.fdiv ((S : ℤ) - dims.2) 2
    ((bgTreat img1 light dark opts.bgStyle S (max dims.1 dims.2) module_size).map
       (fun img2 => logoStage img2 lg dark opts.shape dims module_size logoX logoY
          opts.hasBorder light),
     some dims)

/-- Lines 10-13: `hex_to_rgb`.  One hex digit of Python's `int(_, 16)`. -/
def hexDigitVal (c : Char) : Option ℕ :=
  if '0' ≤ c ∧ c ≤ '9' then some (c.toNat - '0'.toNat)
  else if 'a' ≤ c ∧ c ≤ 'f' then some (c.toNat - 'a'.toNat + 10)
  else if 'A' ≤ c ∧ c ≤ 'F' then some (c.toNat - 'A'.toNat + 10)
  else none

/-- Python `int(s, 16)` restricted to the slices this code produces:
fails on the empty string, succeeds on nonempty all-hex-digit strings.
(Python's parser also tolerates signs/whitespace; no claim depends on
those inputs.) -/
def intBase16 (cs : List Char) : Option ℕ :=
  match cs with
  | [] => none
  | _ =>
    cs.foldl
      (fun acc c =>
        match acc, hexDigitVal c with
        | some a, some v => some (16 * a + v)
        | _, _ => none)
      (some 0)

/-- Lines 10-13: strip all leading `#` (Python `lstrip('#')`), then parse
the three two-character slices `[0:2]`, `[2:4]`, `[4:6]`.  A `none`
result models the `ValueError` Python raises (surfaced by the app as the
color-format failure). -/
def hex_to_rgb (s : List Char) : Option Color :=
  let t := s.dropWhile (fun c => c = '#')
  match intBase16 ((t.drop 0).take 2), intBase16 ((t.drop 2).take 2),
        intBase16 ((t.drop 4).take 2) with
  | some r, some g, some b => some (r, g, b)
  | _, _, _ => none

/- ------------------------------------------------------------------ -/
/- Structural preservation lemmas.                                     -/
/- ------------------------------------------------------------------ -/

theorem foldl_preserve {α : Type} (P : Img → Prop) (f : Img → α → Img)
    (hf : ∀ img a, P img → P (f img a)) :
    ∀ (L : List α) (img : Img), P img → P (L.foldl f img) := by
  intro L
  induction L with
  | nil => intro img h; exact h
  | cons a L ih => intro img h; exact ih (f img a) (hf img a h)

theorem rasterModules_width (qr : ModuleGrid) (m b : ℕ) (dark : Color) (img0 : Img) :
    (rasterModules qr m b dark img0).width = img0.width := by
  unfold rasterModules
  refine foldl_preserve (fun i => i.width = img0.width) _ ?_ _ img0 rfl
  intro img y h
  refine foldl_preserve (fun i => i.width = img0.width) _ ?_ _ img h
  intro img2 x h2
  by_cases hg : qr.get x y <;> simp [hg, blockWrite, h2]

theorem rasterModules_height (qr : ModuleGrid) (m b : ℕ) (dark : Color) (img0 : Img) :
    (rasterModules qr m b dark img0).height = img0.height := by
  unfold rasterModules
  refine foldl_preserve (fun i => i.height = img0.height) _ ?_ _ img0 rfl
  intro img y h
  refine foldl_preserve (fun i => i.height = img0.height) _ ?_ _ img h
  intro img2 x h2
  by_cases hg : qr.get x y <;> simp [hg, blockWrite, h2]

theorem rasterModules_mode (qr : ModuleGrid) (m b : ℕ) (dark : Color) (img0 : Img) :
    (rasterModules qr m b dark img0).mode = img0.mode := by
  unfold rasterModules
  refine foldl_preserve (fun i => i.mode = img0.mode) _ ?_ _ img0 rfl
  intro img y h
  refine foldl_preserve (fun i => i.mode = img0.mode) _ ?_ _ img h
  intro img2 x h2
  by_cases hg : qr.get x y <;> simp [hg, blockWrite, h2]

theorem rasterModules_alpha (qr : ModuleGrid) (m b : ℕ) (dark : Color) (img0 : Img) :
    (rasterModules qr m b dark img0).alpha = img0.alpha := by
  unfold rasterModules
  refine foldl_preserve (fun i => i.alpha = img0.alpha) _ ?_ _ img0 rfl
  intro img y h
  refine foldl_preserve (fun i => i.alpha = img0.alpha) _ ?_ _ img h
  intro img2 x h2
  by_cases hg : qr.get x y <;> simp [hg, blockWrite, h2]

theorem baseCanvas_width (S : ℕ) (light : Color) (bg : BgStyle) :
    (baseCanvas S light bg).width = S := by
  unfold baseCanvas; split <;> rfl

theorem baseCanvas_height (S : ℕ) (light : Color) (bg : BgStyle) :
    (baseCanvas S light bg).height = S := by
  unfold baseCanvas; split <;> rfl

theorem baseCanvas_px (S : ℕ) (light : Color) (bg : BgStyle) :
    (baseCanvas S light bg).px = fun _ _ => light := by
  unfold baseCanvas; split <;> rfl

theorem baseCanvas_alpha (S : ℕ) (light : Color) (bg : BgStyle) :
    (baseCanvas S light bg).alpha = fun _ _ => 255 := by
  unfold baseCanvas; split <;> rfl

theorem withFrame_width (img2 : Img) (dark : Color) (sh : Shape) (lw lh m : ℕ)
    (lX lY : ℤ) (hasB : Bool) :
    (withFrame img2 dark sh lw lh m lX lY hasB).width = img2.width := by
  unfold withFrame; split <;> rfl

theorem withFrame_height (img2 : Img) (dark : Color) (sh : Shape) (lw lh m : ℕ)
    (lX lY : ℤ) (hasB : Bool) :
    (withFrame img2 dark sh lw lh m lX lY hasB).height = img2.height := by
  unfold withFrame; split <;> rfl

theorem withFrame_mode (img2 : Img) (dark : Color) (sh : Shape) (lw lh m : ℕ)
    (lX lY : ℤ) (hasB : Bool) :
    (withFrame img2 dark sh lw lh m lX lY hasB).mode = img2.mode := by
  unfold withFrame; split <;> rfl

theorem pasteB_width (dst src : Img) (ox oy : ℤ) (mask : ℕ → ℕ → Bool) :
    (pasteB dst src ox oy mask).width = dst.width := rfl

theorem pasteB_height (dst src : Img) (ox oy : ℤ) (mask : ℕ → ℕ → Bool) :
    (pasteB dst src ox oy mask).height = dst.height := rfl

theorem pasteB_mode (dst src : Img) (ox oy : ℤ) (mask : ℕ → ℕ → Bool) :
    (pasteB dst src ox oy mask).mode = dst.mode := rfl

theorem finalize_width (img : Img) (light : Color) :
    (finalize img light).width = img.width := by
  unfold finalize; split <;> rfl

theorem finalize_height (img : Img) (light : Color) :
    (finalize img light).height = img.height := by
  unfold finalize; split <;> rfl

theorem finalize_mode (img : Img) (light : Color) :
    (finalize img light).mode = .rgb ∨ (finalize img light).mode = img.mode := by
  unfold finalize; split
  · exact Or.inl rfl
  · exact Or.inr rfl

theorem finalize_mode_rgb (img : Img) (light : Color) :
    (finalize img light).mode = .rgb := by
  unfold finalize
  split
  · rfl
  · next h =>
    cases hm : img.mode with
    | rgb => rfl
    | rgba => exact absurd hm h

theorem finalize_px (img : Img) (light : Color) (x y : ℕ) :
    (finalize img light).px x y
      = if img.mode = .rgba then blendColor light (img.px x y) (img.alpha x y)
        else img.px x y := by
  unfold finalize
  by_cases h : img.mode = .rgba
  · rw [if_pos h, if_pos h]
  · rw [if_neg h, if_neg h]

/-- Pillow's `thumbnail` never resizes when both dimensions already fit. -/
theorem thumbnailDims_noop (w h lms : ℕ) (hw : w ≤ lms) (hh : h ≤ lms) :
    thumbnailDims w h lms = (w, h) := by
  unfold thumbnailDims
  rw [if_pos ⟨hw, hh⟩]

/- ------------------------------------------------------------------ -/
/- The gradient ring loop raises on its inverted boxes.                -/
/- ------------------------------------------------------------------ -/

/-- A ring iteration whose bounding box is inverted raises (returns
`none`), whatever has been drawn so far. -/
theorem gradRingStep_inverted (light dark : Color) (gs : ℕ) (f : ℕ → ℕ → Color) (i : ℕ)
    (hi : (gs : ℤ) - 1 - (i : ℤ) < (i : ℤ)) :
    gradRingStep light dark gs (some f) i = none := by
  unfold gradRingStep
  exact if_pos hi

/-- Once an iteration has raised, the rest of the loop never runs. -/
theorem gradFold_none (light dark : Color) (gs : ℕ) (L : List ℕ) :
    L.foldl (gradRingStep light dark gs) none = none := by
  induction L with
  | nil => rfl
  | cons a L ih =>
    rw [List.foldl_cons]
    exact ih

/-- For every buffer edge `gs ≥ 2` the ring loop raises: iteration
`i = gs - 1` (at the latest) passes the inverted box
`(gs-1, gs-1, 0, 0)` to `draw.ellipse`. -/
theorem gradDiscLoop_none (light dark : Color) (gs : ℕ) (hgs : 2 ≤ gs) :
    gradDiscLoop light dark gs = none := by
  unfold gradDiscLoop
  have h1 : gs - 1 + 1 = gs := by omega
  have h2 : List.range gs = List.range (gs - 1) ++ [gs - 1] := by
    have h3 := List.range_succ (gs - 1)
    rw [Nat.succ_eq_add_one, h1] at h3
    exact h3
  rw [h2, List.foldl_append, List.foldl_cons, List.foldl_nil]
  rcases (List.range (gs - 1)).foldl (gradRingStep light dark gs)
      (some fun _ _ => (0, 0, 0)) with _ | f
  · rfl
  · exact gradRingStep_inverted light dark gs f (gs - 1) (by push_cast; omega)

/- ------------------------------------------------------------------ -/
/- Structural lemmas for the pipeline stages.                          -/
/- ------------------------------------------------------------------ -/

theorem bgTreat_solid (img1 : Img) (light dark : Color) (S maxd m : ℕ) :
    bgTreat img1 light dark BgStyle.solid S maxd m = some img1 := rfl

theorem bgTreat_halo (img1 : Img) (light dark : Color) (S maxd m : ℕ) :
    bgTreat img1 light dark BgStyle.gradientHalo S maxd m
      = some (putalphaImg img1 (haloAlphaN S maxd m)) := rfl

theorem bgTreat_radial (img1 : Img) (light dark : Color) (S maxd m : ℕ) :
    bgTreat img1 light dark BgStyle.radialGradient S maxd m
      = (gradDiscLoop light dark (6 * maxd / 5)).map (fun f =>
          pasteB img1
            { mode := .rgb, width := 6 * maxd / 5, height := 6 * maxd / 5,
              px := f, alpha := fun _ _ => 255 }
            (Int.fdiv ((S : ℤ) - ((6 * maxd / 5 : ℕ) : ℤ)) 2)
            (Int.fdiv ((S : ℤ) - ((6 * maxd / 5 : ℕ) : ℤ)) 2)
            (fun _ _ => true)) := rfl

/-- The Solid and Gradient Halo background treatments never raise. -/
theorem bgTreat_some_of_ne (img1 : Img) (light dark : Color) (bg : BgStyle) (S maxd m : ℕ)
    (hbg : bg ≠ BgStyle.radialGradient) :
    ∃ img2 : Img, bgTreat img1 light dark bg S maxd m = some img2 := by
  cases bg with
  | solid => exact ⟨img1, rfl⟩
  | gradientHalo => exact ⟨_, rfl⟩
  | radialGradient => exact absurd rfl hbg

/-- Every background treatment that completes preserves the canvas
dimensions. -/
theorem bgTreat_dims (img1 : Img) (light dark : Color) (bg : BgStyle) (S maxd m : ℕ)
    (img2 : Img) (h : bgTreat img1 light dark bg S maxd m = some img2) :
    img2.width = img1.width ∧ img2.height = img1.height := by
  cases bg with
  | solid =>
    cases Option.some_inj.mp h
    exact ⟨rfl, rfl⟩
  | gradientHalo =>
    cases Option.some_inj.mp h
    exact ⟨rfl, rfl⟩
  | radialGradient =>
    rw [bgTreat_radial] at h
    rcases hg : gradDiscLoop light dark (6 * maxd / 5) with _ | f
    · rw [hg] at h
      simp at h
    · rw [hg, Option.map_some'] at h
      cases Option.some_inj.mp h
      exact ⟨rfl, rfl⟩

theorem logoStage_width (img2 lg : Img) (dark : Color) (sh : Shape) (dims : ℕ × ℕ)
    (m : ℕ) (lX lY : ℤ) (hasB : Bool) (light : Color) :
    (logoStage img2 lg dark sh dims m lX lY hasB light).width = img2.width := by
  unfold logoStage
  rw [finalize_width, pasteB_width, withFrame_width]

theorem logoStage_height (img2 lg : Img) (dark : Color) (sh : Shape) (dims : ℕ × ℕ)
    (m : ℕ) (lX lY : ℤ) (hasB : Bool) (light : Color) :
    (logoStage img2 lg dark sh dims m lX lY hasB light).height = img2.height := by
  unfold logoStage
  rw [finalize_height, pasteB_height, withFrame_height]

theorem logoStage_mode_rgb (img2 lg : Img) (dark : Color) (sh : Shape) (dims : ℕ × ℕ)
    (m : ℕ) (lX lY : ℤ) (hasB : Bool) (light : Color) :
    (logoStage img2 lg dark sh dims m lX lY hasB light).mode = PixMode.rgb :=
  finalize_mode_rgb _ _

/-- With no logo, the pipeline reduces to rasterize-then-flatten and
always returns an image. -/
theorem create_none_fst (qr : ModuleGrid) (m b : ℕ) (light dark : Color)
    (opts : LogoOptions) :
    (create_qr_image qr m b light dark none opts).1
      = some (finalize (rasterModules qr m b dark
          (baseCanvas ((qr.size + b * 2) * m) light opts.bgStyle)) light) := rfl

/-- With a logo, the pipeline is the background treatment mapped through
the frame/logo/flatten stage. -/
theorem create_some_fst (qr : ModuleGrid) (m b : ℕ) (light dark : Color)
    (lg : Img) (opts : LogoOptions) (S : ℕ) (dims : ℕ × ℕ)
    (hS : S = (qr.size + b * 2) * m)
    (hdims : dims = thumbnailDims lg.width lg.height ((⌊(S : ℚ) * opts.sizeFrac⌋).toNat)) :
    (create_qr_image qr m b light dark (some lg) opts).1
      = (bgTreat (rasterModules qr m b dark (baseCanvas S light opts.bgStyle))
           light dark opts.bgStyle S (max dims.1 dims.2) m).map
          (fun img2 => logoStage img2 lg dark opts.shape dims m
             (Int.fdiv ((S : ℤ) - dims.1) 2) (Int.fdiv ((S : ℤ) - dims.2) 2)
             opts.hasBorder light) := by
  subst hS
  subst hdims
  rfl

/-- Any image the logo path returns came from a completed background
treatment (which preserved the canvas dimensions) through the
frame/logo/flatten stage. -/
theorem create_some_cases (qr : ModuleGrid) (m b : ℕ) (light dark : Color)
    (lg : Img) (opts : LogoOptions) (out : Img)
    (hout : (create_qr_image qr m b light dark (some lg) opts).1 = some out) :
    ∃ img2 : Img,
      img2.width = (qr.size + b * 2) * m ∧ img2.height = (qr.size + b * 2) * m ∧
      out = logoStage img2 lg dark opts.shape
        (thumbnailDims lg.width lg.height
          ((⌊((((qr.size + b * 2) * m : ℕ)) : ℚ) * opts.sizeFrac⌋).toNat)) m
        (Int.fdiv ((((qr.size + b * 2) * m : ℕ) : ℤ)
           - (thumbnailDims lg.width lg.height
               ((⌊((((qr.size + b * 2) * m : ℕ)) : ℚ) * opts.sizeFrac⌋).toNat)).1) 2)
        (Int.fdiv ((((qr.size + b * 2) * m : ℕ) : ℤ)
           - (thumbnailDims lg.width lg.height
               ((⌊((((qr.size + b * 2) * m : ℕ)) : ℚ) * opts.sizeFrac⌋).toNat)).2) 2)
        opts.hasBorder light := by
  rw [create_some_fst qr m b light dark lg opts ((qr.size + b * 2) * m)
      (thumbnailDims lg.width lg.height
        ((⌊((((qr.size + b * 2) * m : ℕ)) : ℚ) * opts.sizeFrac⌋).toNat)) rfl rfl] at hout
  rcases hbt : bgTreat
      (rasterModules qr m b dark (baseCanvas ((qr.size + b * 2) * m) light opts.bgStyle))
      light dark opts.bgStyle ((qr.size + b * 2) * m)
      (max (thumbnailDims lg.width lg.height
            ((⌊((((qr.size + b * 2) * m : ℕ)) : ℚ) * opts.sizeFrac⌋).toNat)).1
        (thumbnailDims lg.width lg.height
            ((⌊((((qr.size + b * 2) * m : ℕ)) : ℚ) * opts.sizeFrac⌋).toNat)).2)
      m with _ | img2
  · rw [hbt] at hout
    simp at hout
  · rw [hbt, Option.map_some'] at hout
    have hd := bgTreat_dims _ _ _ _ _ _ _ img2 hbt
    rw [rasterModules_width, baseCanvas_width] at hd
    rw [rasterModules_height, baseCanvas_height] at hd
    exact ⟨img2, hd.1, hd.2, (Option.some_inj.mp hout).symm⟩

/-- Whenever the background style is Radial Gradient and the resized
logo's larger dimension makes the ring buffer's edge at least 2, the
render raises and no image is returned. -/
theorem create_radial_none (qr : ModuleGrid) (m b : ℕ) (light dark : Color)
    (lg : Img) (opts : LogoOptions) (S : ℕ) (dims : ℕ × ℕ)
    (hS : S = (qr.size + b * 2) * m)
    (hdims : dims = thumbnailDims lg.width lg.height ((⌊(S : ℚ) * opts.sizeFrac⌋).toNat))
    (hbg : opts.bgStyle = BgStyle.radialGradient)
    (hgs : 2 ≤ 6 * max dims.1 dims.2 / 5) :
    (create_qr_image qr m b light dark (some lg) opts).1 = none := by
  rw [create_some_fst qr m b light dark lg opts S dims hS hdims, hbg, bgTreat_radial,
      gradDiscLoop_none light dark _ hgs]
  rfl

/-- C1 (amended): every image `create_qr_image` returns is square with
edge exactly `(s + 2*b) * m` pixels; an image IS returned for every
no-logo render, and for every logo render whose background style is not
Radial Gradient (given a nondegenerate logo and a positive size bound,
the corners at which Pillow's own `thumbnail` raises on a zero
division).  The original claim's "regardless of ... background style"
fails: a Radial Gradient render with a logo raises in the ring loop and
returns no image (`C1_counterexample`). -/
theorem C1_output_edge (qr : ModuleGrid) (m b : ℕ) (light dark : Color)
    (logo : Option Img) (opts : LogoOptions) :
    (∀ out : Img, (create_qr_image qr m b light dark logo opts).1 = some out →
       out.width = (qr.size + 2 * b) * m ∧ out.height = (qr.size + 2 * b) * m) ∧
    (logo = none →
       ∃ out : Img, (create_qr_image qr m b light dark logo opts).1 = some out) ∧
    (∀ (lg : Img) (lms : ℕ), logo = some lg →
       lms = (⌊((((qr.size + b * 2) * m : ℕ)) : ℚ) * opts.sizeFrac⌋).toNat →
       opts.bgStyle ≠ BgStyle.radialGradient →
       0 < lg.width → 0 < lg.height → 1 ≤ lms →
       ∃ out : Img, (create_qr_image qr m b light dark logo opts).1 = some out) := by
  refine ⟨?_, ?_, ?_⟩
  · intro out hout
    cases logo with
    | none =>
      rw [create_none_fst] at hout
      have h1 := Option.some_inj.mp hout
      constructor
      · rw [← h1, finalize_width, rasterModules_width, baseCanvas_width]
        ring
      · rw [← h1, finalize_height, rasterModules_height, baseCanvas_height]
        ring
    | some lg =>
      obtain ⟨img2, hw2, hh2, rfl⟩ := create_some_cases qr m b light dark lg opts out hout
      constructor
      · rw [logoStage_width, hw2]
        ring
      · rw [logoStage_height, hh2]
        ring
  · rintro rfl
    exact ⟨_, create_none_fst qr m b light dark opts⟩
  · rintro lg lms rfl hlms hbg hw hh hlms1
    rw [create_some_fst qr m b light dark lg opts ((qr.size + b * 2) * m)
        (thumbnailDims lg.width lg.height
          ((⌊((((qr.size + b * 2) * m : ℕ)) : ℚ) * opts.sizeFrac⌋).toNat)) rfl rfl]
    obtain ⟨img2, himg2⟩ := bgTreat_some_of_ne
      (rasterModules qr m b dark (baseCanvas ((qr.size + b * 2) * m) light opts.bgStyle))
      light dark opts.bgStyle ((qr.size + b * 2) * m)
      (max (thumbnailDims lg.width lg.height
            ((⌊((((qr.size + b * 2) * m : ℕ)) : ℚ) * opts.sizeFrac⌋).toNat)).1
        (thumbnailDims lg.width lg.height
            ((⌊((((qr.size + b * 2) * m : ℕ)) : ℚ) * opts.sizeFrac⌋).toNat)).2)
      m hbg
    rw [himg2, Option.map_some']
    exact ⟨_, rfl⟩

/-- Witness for C1 (amended): a concrete Gradient Halo render with a
2×2 logo (bound 4) returns an image of edge `(1 + 2*1) * 3 = 9`. -/
theorem C1_witness :
    ∃ out : Img,
      (create_qr_image ⟨1, fun _ _ => true⟩ 3 1 (255, 255, 255) (0, 0, 0)
          (some ⟨PixMode.rgb, 2, 2, fun _ _ => (5, 5, 5), fun _ _ => 255⟩)
          ⟨1/2, Shape.square, BgStyle.gradientHalo, false⟩).1 = some out ∧
      out.width = 9 ∧ out.height = 9 := by
  have h := C1_output_edge ⟨1, fun _ _ => true⟩ 3 1 (255, 255, 255) (0, 0, 0)
    (some ⟨PixMode.rgb, 2, 2, fun _ _ => (5, 5, 5), fun _ _ => 255⟩)
    ⟨1/2, Shape.square, BgStyle.gradientHalo, false⟩
  obtain ⟨out, hout⟩ := h.2.2 ⟨PixMode.rgb, 2, 2, fun _ _ => (5, 5, 5), fun _ _ => 255⟩ 4
    rfl (by norm_num; rfl) (by decide) (by decide) (by decide) (by decide)
  have hd := h.1 out hout
  exact ⟨out, hout, hd.1, hd.2⟩

/-- C1 counterexample: a Radial Gradient render with a 2×2 logo (ring
buffer edge 2) raises in the ring loop — `create_qr_image` returns no
image at all, in particular no square image of edge `(s + 2*b) * m`,
refuting the claim's "regardless of ... background style". -/
theorem C1_counterexample :
    (create_qr_image ⟨1, fun _ _ => true⟩ 4 0 (255, 255, 255) (0, 0, 0)
        (some ⟨PixMode.rgb, 2, 2, fun _ _ => (5, 5, 5), fun _ _ => 255⟩)
        ⟨1, Shape.square, BgStyle.radialGradient, false⟩).1 = none := by
  have hd : ((2 : ℕ), (2 : ℕ))
      = thumbnailDims 2 2 ((⌊((4 : ℕ) : ℚ) * (1 : ℚ)⌋).toNat) := by
    rw [show ((⌊((4 : ℕ) : ℚ) * (1 : ℚ)⌋).toNat) = 4 by norm_num; rfl,
        thumbnailDims_noop 2 2 4 (by norm_num) (by norm_num)]
  exact create_radial_none ⟨1, fun _ _ => true⟩ 4 0 (255, 255, 255) (0, 0, 0)
    ⟨PixMode.rgb, 2, 2, fun _ _ => (5, 5, 5), fun _ _ => 255⟩
    ⟨1, Shape.square, BgStyle.radialGradient, false⟩ 4 (2, 2) rfl hd rfl (by decide)

/-- C5 (amended): every image `create_qr_image` actually returns is RGB,
never RGBA — the RGBA working canvas of the Halo path is flattened over
`light_color` before being returned, and every other completing path
produces an RGB canvas.  The original claim's "for every input
combination" fails: a Radial Gradient render with a logo raises and
returns nothing (`C5_counterexample`). -/
theorem C5_output_is_opaque_rgb (qr : ModuleGrid) (m b : ℕ) (light dark : Color)
    (logo : Option Img) (opts : LogoOptions) :
    ∀ out : Img, (create_qr_image qr m b light dark logo opts).1 = some out →
      out.mode = PixMode.rgb := by
  intro out hout
  cases logo with
  | none =>
    rw [create_none_fst] at hout
    have h1 := Option.some_inj.mp hout
    rw [← h1, finalize_mode_rgb]
  | some lg =>
    obtain ⟨img2, -, -, rfl⟩ := create_some_cases qr m b light dark lg opts out hout
    exact logoStage_mode_rgb _ _ _ _ _ _ _ _ _ _

/-- Witness for C5 (amended): a concrete no-logo Gradient Halo render
(the path whose working canvas is RGBA) returns an RGB image. -/
theorem C5_witness :
    ∃ out : Img,
      (create_qr_image ⟨1, fun _ _ => true⟩ 2 0 (9, 9, 9) (1, 1, 1) none
          ⟨1/4, Shape.square, BgStyle.gradientHalo, false⟩).1 = some out ∧
      out.mode = PixMode.rgb := by
  refine ⟨_, rfl, ?_⟩
  exact C5_output_is_opaque_rgb ⟨1, fun _ _ => true⟩ 2 0 (9, 9, 9) (1, 1, 1) none
    ⟨1/4, Shape.square, BgStyle.gradientHalo, false⟩ _ rfl

/-- C5 counterexample: a Radial Gradient render with a 5×5 logo raises
in the ring loop and returns no image — so it is not the case that an
(opaque RGB) image is returned for every input combination. -/
theorem C5_counterexample :
    (create_qr_image ⟨2, fun x y => decide (x = y)⟩ 3 1 (255, 255, 255) (0, 0, 0)
        (some ⟨PixMode.rgb, 5, 5, fun _ _ => (8, 8, 8), fun _ _ => 255⟩)
        ⟨1/2, Shape.circle, BgStyle.radialGradient, false⟩).1 = none := by
  have hd : ((5 : ℕ), (5 : ℕ))
      = thumbnailDims 5 5 ((⌊((12 : ℕ) : ℚ) * (1/2 : ℚ)⌋).toNat) := by
    rw [show ((⌊((12 : ℕ) : ℚ) * (1/2 : ℚ)⌋).toNat) = 6 by norm_num; rfl,
        thumbnailDims_noop 5 5 6 (by norm_num) (by norm_num)]
  exact create_radial_none ⟨2, fun x y => decide (x = y)⟩ 3 1 (255, 255, 255) (0, 0, 0)
    ⟨PixMode.rgb, 5, 5, fun _ _ => (8, 8, 8), fun _ _ => 255⟩
    ⟨1/2, Shape.circle, BgStyle.radialGradient, false⟩ 12 (5, 5) rfl hd rfl (by decide)

/- ------------------------------------------------------------------ -/
/- Closed form of the module rasterization loop (lines 31-36).         -/
/- ------------------------------------------------------------------ -/

theorem rasterRow_px (qr : ModuleGrid) (m b : ℕ) (dark : Color) (y : ℕ)
    (L : List ℕ) (img : Img) (px py : ℕ) :
    (L.foldl (fun imgX x => if qr.get x y then blockWrite m b dark x y imgX else imgX)
        img).px px py
      = if ∃ x ∈ L, qr.get x y = true ∧ inModuleBlock m b x y px py then dark
        else img.px px py := by
  induction L generalizing img with
  | nil => simp
  | cons a L ih =>
    simp only [List.foldl_cons]
    rw [ih]
    simp only [List.mem_cons, exists_eq_or_imp]
    by_cases hga : qr.get a y = true
    · by_cases hblk : inModuleBlock m b a y px py
      · simp [hga, hblk, blockWrite]
      · simp [hga, hblk, blockWrite]
    · simp [hga]

theorem rasterRows_px (qr : ModuleGrid) (m b : ℕ) (dark : Color)
    (L : List ℕ) (img : Img) (px py : ℕ) :
    (L.foldl
        (fun imgY y =>
          (List.range qr.size).foldl
            (fun imgX x => if qr.get x y then blockWrite m b dark x y imgX else imgX) imgY)
        img).px px py
      = if ∃ y ∈ L, ∃ x ∈ List.range qr.size,
            qr.get x y = true ∧ inModuleBlock m b x y px py
        then dark else img.px px py := by
  induction L generalizing img with
  | nil => simp
  | cons a L ih =>
    simp only [List.foldl_cons]
    rw [ih, rasterRow_px]
    simp only [List.mem_cons, exists_eq_or_imp]
    by_cases ha : ∃ x < qr.size, qr.get x a = true ∧ inModuleBlock m b x a px py
    · simp [ha]
    · simp [ha]

/-- Closed form of the rasterization loop: a pixel is dark exactly when
some dark module's block covers it; otherwise it keeps the base canvas
value. -/
theorem rasterModules_px (qr : ModuleGrid) (m b : ℕ) (dark : Color) (img0 : Img)
    (px py : ℕ) :
    (rasterModules qr m b dark img0).px px py
      = if ∃ my ∈ List.range qr.size, ∃ mx ∈ List.range qr.size,
            qr.get mx my = true ∧ inModuleBlock m b mx my px py
        then dark else img0.px px py := by
  unfold rasterModules
  exact rasterRows_px qr m b dark (List.range qr.size) img0 px py

theorem muldiv255_zero (d : ℕ) : muldiv255 d 0 = 0 := by simp [muldiv255]

theorem muldiv255_full (s : ℕ) (hs : s ≤ 255) : muldiv255 s 255 = s := by
  unfold muldiv255; omega

theorem blendChannel_alpha255 (d s : ℕ) (hs : s ≤ 255) : blendChannel d s 255 = s := by
  unfold blendChannel
  rw [Nat.sub_self, muldiv255_zero, muldiv255_full s hs, Nat.zero_add]

theorem blendColor_alpha255 (d s : Color)
    (hs : s.1 ≤ 255 ∧ s.2.1 ≤ 255 ∧ s.2.2 ≤ 255) :
    blendColor d s 255 = s := by
  obtain ⟨s1, s2, s3⟩ := s
  obtain ⟨h1, h2, h3⟩ := hs
  simp only [blendColor]
  rw [blendChannel_alpha255 _ _ h1, blendChannel_alpha255 _ _ h2, blendChannel_alpha255 _ _ h3]

/-- The rasterized-and-flattened canvas's pixel function in closed
form: `dark` on every pixel covered by a dark module's block, the base
`light` color everywhere else (for in-gamut colors, so that the
Halo-path flatten is the identity on the fully opaque canvas). -/
theorem raster_finalize_px (qr : ModuleGrid) (m b S : ℕ) (light dark : Color)
    (bg : BgStyle)
    (hl : light.1 ≤ 255 ∧ light.2.1 ≤ 255 ∧ light.2.2 ≤ 255)
    (hd : dark.1 ≤ 255 ∧ dark.2.1 ≤ 255 ∧ dark.2.2 ≤ 255)
    (px py : ℕ) :
    (finalize (rasterModules qr m b dark (baseCanvas S light bg)) light).px px py
      = if ∃ my ∈ List.range qr.size, ∃ mx ∈ List.range qr.size,
            qr.get mx my = true ∧ inModuleBlock m b mx my px py
        then dark else light := by
  rw [finalize_px]
  simp only [rasterModules_mode, rasterModules_alpha, rasterModules_px,
             baseCanvas_alpha, baseCanvas_px]
  by_cases hE : ∃ my ∈ List.range qr.size, ∃ mx ∈ List.range qr.size,
      qr.get mx my = true ∧ inModuleBlock m b mx my px py
  · rw [if_pos hE]
    split
    · exact blendColor_alpha255 light dark hd
    · rfl
  · rw [if_neg hE]
    split
    · exact blendColor_alpha255 light light hl
    · rfl

/-- C2: with no logo an image is always returned, and in it every pixel
of every dark module's `m × m` block (top-left corner
`((x+border)*m, (y+border)*m)`) equals `dark_color`; every other pixel,
including the whole quiet zone, equals `light_color`; consequently no
third color value occurs. -/
theorem C2_no_logo_two_colors (qr : ModuleGrid) (m b : ℕ) (light dark : Color)
    (opts : LogoOptions)
    (hl : light.1 ≤ 255 ∧ light.2.1 ≤ 255 ∧ light.2.2 ≤ 255)
    (hd : dark.1 ≤ 255 ∧ dark.2.1 ≤ 255 ∧ dark.2.2 ≤ 255) :
    ∃ out : Img,
      (create_qr_image qr m b light dark none opts).1 = some out ∧
      (∀ mx my, mx < qr.size → my < qr.size → qr.get mx my = true →
         ∀ dx dy, dx < m → dy < m →
           out.px ((mx + b) * m + dx) ((my + b) * m + dy) = dark) ∧
      (∀ px py,
         (¬ ∃ mx, mx < qr.size ∧ ∃ my, my < qr.size ∧
              qr.get mx my = true ∧ inModuleBlock m b mx my px py) →
         out.px px py = light) ∧
      (∀ px py, out.px px py = dark ∨ out.px px py = light) := by
  refine ⟨_, create_none_fst qr m b light dark opts, ?_, ?_, ?_⟩
  · intro mx my hmx hmy hget dx dy hdx hdy
    rw [raster_finalize_px qr m b _ light dark opts.bgStyle hl hd]
    rw [if_pos]
    exact ⟨my, List.mem_range.2 hmy, mx, List.mem_range.2 hmx, hget,
      by constructor <;> omega⟩
  · intro px py hno
    rw [raster_finalize_px qr m b _ light dark opts.bgStyle hl hd]
    rw [if_neg]
    rintro ⟨my, hmyL, mx, hmxL, hget, hblk⟩
    exact hno ⟨mx, List.mem_range.1 hmxL, my, List.mem_range.1 hmyL, hget, hblk⟩
  · intro px py
    rw [raster_finalize_px qr m b _ light dark opts.bgStyle hl hd]
    split
    · exact Or.inl rfl
    · exact Or.inr rfl

/-- Witness for C2 at a concrete render: grid of size 2 with one dark
module at (0,0), module size 2, border 1, no logo: the block pixel
(2,2) is the dark color and the quiet-zone pixel (0,0) is the light
color. -/
theorem C2_witness :
    ∃ out : Img,
      (create_qr_image ⟨2, fun x y => decide (x = 0 ∧ y = 0)⟩ 2 1 (250, 250, 250) (1, 2, 3)
          none ⟨1/4, Shape.square, BgStyle.solid, false⟩).1 = some out ∧
      out.px 2 2 = (1, 2, 3) ∧ out.px 0 0 = (250, 250, 250) := by
  obtain ⟨out, hout, h1, h2, h3⟩ := C2_no_logo_two_colors
    ⟨2, fun x y => decide (x = 0 ∧ y = 0)⟩ 2 1
    (250, 250, 250) (1, 2, 3) ⟨1/4, Shape.square, BgStyle.solid, false⟩
    (by refine ⟨?_, ?_, ?_⟩ <;> decide) (by refine ⟨?_, ?_, ?_⟩ <;> decide)
  refine ⟨out, hout, ?_, ?_⟩
  · exact h1 0 0 (by decide) (by decide) (by decide) 0 0 (by decide) (by decide)
  · refine h2 0 0 ?_
    rintro ⟨mx, hmx, my, hmy, hget, hblk⟩
    interval_cases mx <;> interval_cases my <;>
      revert hget hblk <;> decide

/- ------------------------------------------------------------------ -/
/- C6: logo border frame width.                                        -/
/- ------------------------------------------------------------------ -/

/-- Modelled from the spec's words, for comparison with the code:
`borderWidth = max(1, round(0.75 × moduleSize))`. -/
def borderWidthSpec (m : ℕ) : ℕ := max 1 (round ((3 : ℚ) / 4 * m)).toNat

/-- C6 counterexample: at `moduleSize = 2` the code computes
`max(1, int(2*0.75)) = max(1, 1) = 1`, while the claimed formula
`max(1, round(0.75*2)) = max(1, round(1.5)) = 2`. -/
theorem C6_counterexample :
    border_width 2 = 1 ∧ borderWidthSpec 2 = 2 ∧ border_width 2 ≠ borderWidthSpec 2 := by
  have hround : round ((3 : ℚ) / 4 * 2) = 2 := by norm_num [round_eq]
  have h2 : borderWidthSpec 2 = 2 := by
    show max 1 (round ((3 : ℚ) / 4 * 2)).toNat = 2
    rw [hround]
    decide
  exact ⟨rfl, h2, by rw [h2]; decide⟩

/-- C6 (amended): the border frame width is `max(1, ⌊0.75*moduleSize⌋)`
(floor, not round), and the frame rectangle measures
`logoWidth + 2*borderWidth` by `logoHeight + 2*borderWidth`; the frame
mask is produced by the same shape-mask generator as the logo's own
mask, applied at the frame size (`shapeMask`, lines 96-105 duplicate the
branching of lines 83-89 verbatim). -/
theorem C6_border_frame (m : ℕ) (hm : 1 ≤ m) :
    border_width m = max 1 (⌊(3 : ℚ) / 4 * (m : ℚ)⌋₊) ∧
    (∀ lw lh : ℕ,
      border_frame_size lw lh m = (lw + 2 * border_width m, lh + 2 * border_width m)) ∧
    (∀ (sh : Shape) (lw lh : ℕ),
      shapeMask sh (border_frame_size lw lh m).1 (border_frame_size lw lh m).2
        = shapeMask sh (lw + 2 * border_width m) (lh + 2 * border_width m)) := by
  have hfloor : ⌊(3 : ℚ) / 4 * (m : ℚ)⌋₊ = m * 3 / 4 := by
    have h1 : (3 : ℚ) / 4 * (m : ℚ) = ((m * 3 : ℕ) : ℚ) / ((4 : ℕ) : ℚ) := by
      push_cast; ring
    rw [h1, Nat.floor_div_nat, Nat.floor_natCast]
  refine ⟨?_, ?_, ?_⟩
  · rw [hfloor]; rfl
  · intro lw lh
    unfold border_frame_size
    rw [Nat.mul_comm (border_width m) 2]
  · intro sh lw lh
    unfold border_frame_size
    simp only
    rw [Nat.mul_comm (border_width m) 2]

/-- Witness for C6 (amended) at `moduleSize = 2`. -/
theorem C6_witness :
    border_width 2 = max 1 (⌊(3 : ℚ) / 4 * (2 : ℚ)⌋₊) ∧
    border_frame_size 10 7 2 = (10 + 2 * border_width 2, 7 + 2 * border_width 2) := by
  have h := C6_border_frame 2 (by decide)
  exact ⟨h.1, h.2.1 10 7⟩

/- ------------------------------------------------------------------ -/
/- C9: hex color parsing.                                              -/
/- ------------------------------------------------------------------ -/

/-- C9 counterexample: the 5-digit input `"FFFFF"` violates the
6-hex-digit length constraint, yet `hex_to_rgb` happily returns
`(255, 255, 15)` (the third slice `[4:6]` is the single digit `"F"`,
which `int(_, 16)` accepts); the claimed universal failure on
length-violating inputs is false. -/
theorem C9_counterexample :
    hex_to_rgb ['F', 'F', 'F', 'F', 'F'] = some (255, 255, 15) ∧
    hex_to_rgb ['F', 'F', 'F', 'F', 'F'] ≠ none := by
  constructor
  · rfl
  · intro h
    simp [hex_to_rgb, intBase16, hexDigitVal] at h

/-- C9 (amended): stripping any number of leading `#`, every 6-hex-digit
input parses to the triple of its byte values; any input with at most 4
characters after stripping fails (its `[4:6]` slice is empty); and the
spec's example `"#ZZZZZZ"` fails.  (Inputs of length 5, or longer than
6, can still succeed, which is what the original claim got wrong.) -/
theorem C9_hex_to_rgb_amended :
    (∀ (pre : List Char) (c0 c1 c2 c3 c4 c5 : Char) (v0 v1 v2 v3 v4 v5 : ℕ),
       (∀ c ∈ pre, c = '#') →
       hexDigitVal c0 = some v0 → hexDigitVal c1 = some v1 →
       hexDigitVal c2 = some v2 → hexDigitVal c3 = some v3 →
       hexDigitVal c4 = some v4 → hexDigitVal c5 = some v5 →
       hex_to_rgb (pre ++ [c0, c1, c2, c3, c4, c5])
         = some (16 * v0 + v1, 16 * v2 + v3, 16 * v4 + v5)) ∧
    (∀ t : List Char, (t.dropWhile (fun c => c = '#')).length ≤ 4 →
       hex_to_rgb t = none) ∧
    hex_to_rgb ['#', 'Z', 'Z', 'Z', 'Z', 'Z', 'Z'] = none := by
  refine ⟨?_, ?_, rfl⟩
  · intro pre c0 c1 c2 c3 c4 c5 v0 v1 v2 v3 v4 v5 hpre h0 h1 h2 h3 h4 h5
    have hc0 : ¬(c0 = '#') := by
      intro hc; rw [hc] at h0
      simp [hexDigitVal] at h0
    have hstrip : (pre ++ [c0, c1, c2, c3, c4, c5]).dropWhile (fun c => c = '#')
        = [c0, c1, c2, c3, c4, c5] := by
      induction pre with
      | nil => simp [List.dropWhile_cons, hc0]
      | cons d pre ih =>
        have hd : d = '#' := hpre d (List.mem_cons_self d pre)
        have hrest : ∀ c ∈ pre, c = '#' := fun c hc => hpre c (List.mem_cons_of_mem d hc)
        simp only [List.cons_append, List.dropWhile_cons, hd]
        simp only [decide_eq_true_eq, if_pos rfl]
        exact ih hrest
    simp [hex_to_rgb, hstrip, intBase16, h0, h1, h2, h3, h4, h5]
  · intro t ht
    have hdrop : (t.dropWhile (fun c => c = '#')).drop 4 = [] := by
      rw [List.drop_eq_nil_iff_le]
      exact ht
    simp only [hex_to_rgb, hdrop, List.take_nil, List.drop_zero]
    cases intBase16 ((t.dropWhile (fun c => c = '#')).take 2) <;>
      cases intBase16 (((t.dropWhile (fun c => c = '#')).drop 2).take 2) <;>
      simp [intBase16]

/-- Witness for C9 (amended): `"#1A2b3C"` parses to `(26, 43, 60)`. -/
theorem C9_witness :
    hex_to_rgb ['#', '1', 'A', '2', 'b', '3', 'C'] = some (26, 43, 60) := by
  have h := C9_hex_to_rgb_amended
  have h1 := h.1 ['#'] '1' 'A' '2' 'b' '3' 'C' 1 10 2 11 3 12
    (by intro c hc; simpa using hc) (by decide) (by decide) (by decide)
    (by decide) (by decide) (by decide)
  exact h1

/- ------------------------------------------------------------------ -/
/- C3: the Gradient Halo alpha mask.                                   -/
/- ------------------------------------------------------------------ -/

theorem fade_le_255 (I m N : ℕ) (hm : 1 ≤ m) (hN : N < (I + 4 * m) ^ 2) :
    (Nat.sqrt (65025 * N) - 255 * I) / (4 * m) ≤ 255 := by
  have hNle : N ≤ (I + 4 * m) ^ 2 := Nat.le_of_lt hN
  have h1 : 65025 * N ≤ 255 * (I + 4 * m) * (255 * (I + 4 * m)) := by nlinarith
  have hs : Nat.sqrt (65025 * N) ≤ 255 * (I + 4 * m) := by
    calc Nat.sqrt (65025 * N)
        ≤ Nat.sqrt (255 * (I + 4 * m) * (255 * (I + 4 * m))) := Nat.sqrt_le_sqrt h1
      _ = 255 * (I + 4 * m) := Nat.sqrt_eq _
  have h2 : Nat.sqrt (65025 * N) - 255 * I ≤ 255 * (4 * m) := by
    have : 255 * (I + 4 * m) = 255 * I + 255 * (4 * m) := by ring
    omega
  calc (Nat.sqrt (65025 * N) - 255 * I) / (4 * m)
      ≤ 255 * (4 * m) / (4 * m) := Nat.div_le_div_right h2
    _ = 255 := Nat.mul_div_cancel 255 (by omega)

theorem haloAlphaN_mono (s maxdim m x1 y1 x2 y2 : ℕ) (hm : 1 ≤ m)
    (h : distSqN s x1 y1 ≤ distSqN s x2 y2) :
    haloAlphaN s maxdim m x1 y1 ≤ haloAlphaN s maxdim m x2 y2 := by
  simp only [haloAlphaN]
  by_cases h1a : distSqN s x1 y1 ≤ maxdim ^ 2
  · rw [if_pos h1a]; exact Nat.zero_le _
  · rw [if_neg h1a, if_neg (by omega : ¬ distSqN s x2 y2 ≤ maxdim ^ 2)]
    by_cases h1b : distSqN s x1 y1 < (maxdim + 4 * m) ^ 2
    · rw [if_pos h1b]
      by_cases h2b : distSqN s x2 y2 < (maxdim + 4 * m) ^ 2
      · rw [if_pos h2b]
        exact Nat.div_le_div_right
          (Nat.sub_le_sub_right (Nat.sqrt_le_sqrt (Nat.mul_le_mul_left 65025 h)) _)
      · rw [if_neg h2b]
        exact fade_le_255 maxdim m _ hm h1b
    · rw [if_neg h1b, if_neg (by omega : ¬ distSqN s x2 y2 < (maxdim + 4 * m) ^ 2)]

/-- C3 counterexample: image size 6 (center (3,3)), post-thumbnail logo
max dimension 2 (so `innerRadius = 1`), module size 1 (so
`outerRadius = 3`), pixel (5,3) at exact distance `d = 2` from the
center.  The claim's formula gives `255*(2-1)/(3-1) = 127.5` exactly,
but the mask value actually written is the `uint8` truncation 127:
the alpha is not "exactly `255*(d-inner)/(outer-inner)`". -/
theorem C3_counterexample :
    haloAlphaN 6 2 1 5 3 = 127 ∧
    Real.sqrt ((distSqN 6 5 3 : ℕ) : ℝ) / 2 = 2 ∧
    ((haloAlphaN 6 2 1 5 3 : ℝ) ≠ 255 * (2 - 1) / (3 - 1)) := by
  have hD : distSqN 6 5 3 = 16 := by decide
  have h127 : haloAlphaN 6 2 1 5 3 = 127 := by
    simp only [haloAlphaN, hD]
    norm_num
  refine ⟨h127, ?_, ?_⟩
  · rw [hD, show ((16 : ℕ) : ℝ) = 4 ^ 2 by norm_num,
       Real.sqrt_sq (by norm_num : (0:ℝ) ≤ 4)]
    norm_num
  · rw [h127]
    norm_num

/-- C3 (amended): writing `N` for four times the squared distance of a
pixel from the image center (`d = √N / 2`), `inner = maxdim/2` (so
`d ≤ inner ↔ N ≤ maxdim²`) and `outer = inner + 2*moduleSize`
(`d ≥ outer ↔ N ≥ (maxdim + 4*moduleSize)²`), the halo alpha written for
a pixel is exactly 0 for `d ≤ inner`, exactly 255 for `d ≥ outer`, and
the FLOOR `⌊255*(d - inner)/(outer - inner)⌋` (the `uint8` truncation;
not the exact real value) strictly inside the annulus; it is monotone
non-decreasing in the distance over the whole image. -/
theorem C3_halo_alpha (s maxdim m x y N : ℕ) (hm : 1 ≤ m)
    (hN : N = distSqN s x y) :
    (N ≤ maxdim ^ 2 → haloAlphaN s maxdim m x y = 0) ∧
    ((maxdim + 4 * m) ^ 2 ≤ N → haloAlphaN s maxdim m x y = 255) ∧
    (maxdim ^ 2 < N → N < (maxdim + 4 * m) ^ 2 →
       haloAlphaN s maxdim m x y
         = ⌊(255 : ℝ) * (Real.sqrt (N : ℝ) / 2 - (maxdim : ℝ) / 2)
             / (((maxdim : ℝ) / 2 + 2 * (m : ℝ)) - (maxdim : ℝ) / 2)⌋₊) ∧
    (∀ x2 y2 : ℕ, distSqN s x y ≤ distSqN s x2 y2 →
       haloAlphaN s maxdim m x y ≤ haloAlphaN s maxdim m x2 y2) := by
  have hsq : maxdim ^ 2 < (maxdim + 4 * m) ^ 2 := by
    have hexp : (maxdim + 4 * m) ^ 2 = maxdim ^ 2 + 8 * maxdim * m + 16 * m ^ 2 := by ring
    have hmp : 0 < m ^ 2 := pow_pos (by omega) 2
    omega
  refine ⟨?_, ?_, ?_, ?_⟩
  · intro h
    simp only [haloAlphaN]
    rw [hN] at h
    rw [if_pos h]
  · intro h
    simp only [haloAlphaN]
    rw [hN] at h
    rw [if_neg (by omega), if_neg (by omega)]
  · intro hlo hhi
    simp only [haloAlphaN]
    rw [hN] at hlo hhi
    rw [if_neg (by omega), if_pos hhi]
    have hm0 : ((m : ℝ)) ≠ 0 := by
      simp only [ne_eq, Nat.cast_eq_zero]; omega
    have harg : (255 : ℝ) * (Real.sqrt (distSqN s x y : ℝ) / 2 - (maxdim : ℝ) / 2)
          / (((maxdim : ℝ) / 2 + 2 * (m : ℝ)) - (maxdim : ℝ) / 2)
        = (255 * Real.sqrt (distSqN s x y : ℝ) - ((255 * maxdim : ℕ) : ℝ))
          / ((4 * m : ℕ) : ℝ) := by
      push_cast
      field_simp
      ring
    rw [hN, harg, Nat.floor_div_nat, Nat.floor_sub_nat]
    have h255 : (255 : ℝ) * Real.sqrt ((distSqN s x y : ℕ) : ℝ)
        = Real.sqrt (((65025 * distSqN s x y : ℕ) : ℕ) : ℝ) := by
      rw [show (((65025 * distSqN s x y : ℕ) : ℕ) : ℝ) = 255 ^ 2 * ((distSqN s x y : ℕ) : ℝ)
            by push_cast; ring]
      rw [Real.sqrt_mul (by positivity) _]
      rw [Real.sqrt_sq (by norm_num : (0:ℝ) ≤ 255)]
    rw [h255, Real.nat_floor_real_sqrt_eq_nat_sqrt]
  · intro x2 y2 h
    exact haloAlphaN_mono s maxdim m x y x2 y2 hm h

/-- Witness for C3 (amended), instantiated at the concrete fade-zone
pixel of the counterexample: the written alpha equals the floor of the
claimed expression. -/
theorem C3_witness :
    haloAlphaN 6 2 1 5 3
      = ⌊(255 : ℝ) * (Real.sqrt ((16 : ℕ) : ℝ) / 2 - ((2 : ℕ) : ℝ) / 2)
          / ((((2 : ℕ) : ℝ) / 2 + 2 * ((1 : ℕ) : ℝ)) - ((2 : ℕ) : ℝ) / 2)⌋₊ :=
  (C3_halo_alpha 6 2 1 5 3 16 (by decide) (by decide)).2.2.1 (by decide) (by decide)

/- ------------------------------------------------------------------ -/
/- C7: shape masks.                                                    -/
/- ------------------------------------------------------------------ -/

/-- Modelled from the spec's words, for comparison with the code: the
rounded-rectangle mask with the EXACT radius `0.2 × min(w,h)` (a
rational, not truncated to an integer as the code's
`int(min(size)*0.2)` does). -/
def roundedCoversSpecQ (w h : ℕ) (px py : ℕ) : Bool :=
  let r : ℚ := (min w h : ℚ) / 5
  decide ((0 : ℚ) ≤ px ∧ (px : ℚ) ≤ w ∧ (0 : ℚ) ≤ py ∧ (py : ℚ) ≤ h ∧
    ((px : ℚ) < r ∧ (py : ℚ) < r → ((px : ℚ) - r) ^ 2 + ((py : ℚ) - r) ^ 2 ≤ r ^ 2) ∧
    ((w : ℚ) - r < px ∧ (py : ℚ) < r → ((px : ℚ) - ((w : ℚ) - r)) ^ 2 + ((py : ℚ) - r) ^ 2 ≤ r ^ 2) ∧
    ((px : ℚ) < r ∧ (h : ℚ) - r < py → ((px : ℚ) - r) ^ 2 + ((py : ℚ) - ((h : ℚ) - r)) ^ 2 ≤ r ^ 2) ∧
    ((w : ℚ) - r < px ∧ (h : ℚ) - r < py →
      ((px : ℚ) - ((w : ℚ) - r)) ^ 2 + ((py : ℚ) - ((h : ℚ) - r)) ^ 2 ≤ r ^ 2))

/-- C7 counterexample.  Two parts fail on the code:
(1) because the draw bounding box is `(0, 0, w, h)` (one past the last
pixel), the bottom-right corner pixel (3,3) of a 4×4 Circle mask lies at
distance √2 < 2 from the ellipse center (2,2) and has coverage 255, not
the claimed 0;
(2) for a 7×7 RoundedRectangle the code truncates the radius to
`int(1.4) = 1`, so pixel (1,0) is covered, while the claimed exact
radius `0.2*7 = 1.4` would exclude it. -/
theorem C7_counterexample :
    shapeMask Shape.circle 4 4 3 3 = true ∧
    shapeMask Shape.roundedRect 7 7 1 0 = true ∧
    roundedCoversSpecQ 7 7 1 0 = false := by
  refine ⟨by decide, by decide, ?_⟩
  simp only [roundedCoversSpecQ, decide_eq_false_iff_not]
  rintro ⟨-, -, -, -, h1, -, -, -⟩
  have h2 := h1 (by norm_num)
  norm_num at h2

set_option maxHeartbeats 1000000 in
/-- C7 (amended): for every rectangle size `(w,h)` (both ≥ 1):
the Square mask is 255 everywhere; the Circle mask is the crisp
inscribed ellipse of the box `(0,0,w,h)`, its top-left corner pixel is
always 0, and all four corner pixels are 0 as soon as `w, h ≥ 7`
(for tiny masks such as 4×4 the bottom/right corner pixels ARE covered,
since the box extends one past the last pixel index); the
RoundedRectangle mask uses the truncated radius `r = ⌊0.2*min(w,h)⌋`:
for `min < 5` it degenerates to the full rectangle (everything 255),
for `min ≥ 5` the corner pixel (0,0) is 0, and all four corner pixels
are 0 as soon as `r ≥ 4` (i.e. `min ≥ 20`). -/
theorem C7_shape_masks (w h : ℕ) (hw : 1 ≤ w) (hh : 1 ≤ h) :
    (∀ px py : ℕ, px < w → py < h → shapeMask Shape.square w h px py = true) ∧
    (shapeMask Shape.circle w h 0 0 = false) ∧
    (7 ≤ w → 7 ≤ h →
       shapeMask Shape.circle w h (w - 1) 0 = false ∧
       shapeMask Shape.circle w h 0 (h - 1) = false ∧
       shapeMask Shape.circle w h (w - 1) (h - 1) = false) ∧
    (min w h < 5 → ∀ px py : ℕ, px < w → py < h →
       shapeMask Shape.roundedRect w h px py = true) ∧
    (5 ≤ min w h → shapeMask Shape.roundedRect w h 0 0 = false) ∧
    (20 ≤ min w h →
       shapeMask Shape.roundedRect w h (w - 1) 0 = false ∧
       shapeMask Shape.roundedRect w h 0 (h - 1) = false ∧
       shapeMask Shape.roundedRect w h (w - 1) (h - 1) = false) := by
  have hwz : (1 : ℤ) ≤ (w : ℤ) := by exact_mod_cast hw
  have hhz : (1 : ℤ) ≤ (h : ℤ) := by exact_mod_cast hh
  refine ⟨?_, ?_, ?_, ?_, ?_, ?_⟩
  · intro px py hpx hpy
    simp only [shapeMask, decide_eq_true_eq]
    omega
  · simp only [shapeMask, ellipseCovers, decide_eq_false_iff_not]
    rintro ⟨-, -, -, -, hle⟩
    push_cast at hle
    have hw2 : (1 : ℤ) ≤ (w : ℤ) ^ 2 := by nlinarith
    have hh2 : (1 : ℤ) ≤ (h : ℤ) ^ 2 := by nlinarith
    have hp : (1 : ℤ) ≤ (w : ℤ) ^ 2 * (h : ℤ) ^ 2 := by nlinarith [hw2, hh2]
    nlinarith [hle, hp]
  · intro hw7 hh7
    have hw7z : (7 : ℤ) ≤ (w : ℤ) := by exact_mod_cast hw7
    have hh7z : (7 : ℤ) ≤ (h : ℤ) := by exact_mod_cast hh7
    have hcw : ((w - 1 : ℕ) : ℤ) = (w : ℤ) - 1 := by omega
    have hch : ((h - 1 : ℕ) : ℤ) = (h : ℤ) - 1 := by omega
    have hsqw : (25 : ℤ) ≤ ((w : ℤ) - 2) ^ 2 := by nlinarith
    have hsqh : (25 : ℤ) ≤ ((h : ℤ) - 2) ^ 2 := by nlinarith
    have hsq1w : (1 : ℤ) ≤ (w : ℤ) ^ 2 := by nlinarith
    have hsq1h : (1 : ℤ) ≤ (h : ℤ) ^ 2 := by nlinarith
    refine ⟨?_, ?_, ?_⟩
    · simp only [shapeMask, ellipseCovers, decide_eq_false_iff_not, hcw]
      rintro ⟨-, -, -, -, hle⟩
      push_cast at hle
      have hprod : (25 : ℤ) ≤ ((w : ℤ) - 2) ^ 2 * (h : ℤ) ^ 2 := by
        nlinarith [hsqw, hsq1h]
      nlinarith [hle, hprod]
    · simp only [shapeMask, ellipseCovers, decide_eq_false_iff_not, hch]
      rintro ⟨-, -, -, -, hle⟩
      push_cast at hle
      have hprod : (25 : ℤ) ≤ ((h : ℤ) - 2) ^ 2 * (w : ℤ) ^ 2 := by
        nlinarith [hsqh, hsq1w]
      nlinarith [hle, hprod]
    · simp only [shapeMask, ellipseCovers, decide_eq_false_iff_not, hcw, hch]
      rintro ⟨-, -, -, -, hle⟩
      push_cast at hle
      -- (w-2)^2*h^2 + (h-2)^2*w^2 > w^2*h^2 for w, h ≥ 7.
      have hb1 : (5 : ℤ) * (h : ℤ) ≤ 7 * ((h : ℤ) - 2) := by linarith
      have hb0 : (0 : ℤ) ≤ 5 * (h : ℤ) := by linarith
      have hbsq := mul_le_mul hb1 hb1 hb0 (by linarith)
      have key1 : 25 * (h : ℤ) ^ 2 ≤ 49 * ((h : ℤ) - 2) ^ 2 := by nlinarith [hbsq]
      have key5 : 25 * (h : ℤ) ^ 2 * (w : ℤ) ^ 2 ≤ 49 * ((h : ℤ) - 2) ^ 2 * (w : ℤ) ^ 2 :=
        mul_le_mul_of_nonneg_right key1 (sq_nonneg _)
      have key2 : (0 : ℤ) < 25 * (w : ℤ) ^ 2 - 196 * (w : ℤ) + 196 := by
        nlinarith [sq_nonneg ((w : ℤ) - 7)]
      have hh0 : (0 : ℤ) < (h : ℤ) := by linarith
      have key4 : (0 : ℤ) < (25 * (w : ℤ) ^ 2 - 196 * (w : ℤ) + 196) * (h : ℤ) ^ 2 :=
        mul_pos key2 (pow_pos hh0 2)
      nlinarith [hle, key5, key4]
  · intro hmin px py hpx hpy
    have hr : min w h / 5 = 0 := Nat.div_eq_of_lt hmin
    simp only [shapeMask, roundedCovers, hr, decide_eq_true_eq]
    push_cast
    refine ⟨by omega, by omega, by omega, by omega, ?_, ?_, ?_, ?_⟩ <;>
      rintro ⟨h1, h2⟩ <;> omega
  · intro hmin
    have hr1 : 1 ≤ min w h / 5 := by omega
    have hrz : (1 : ℤ) ≤ ((min w h / 5 : ℕ) : ℤ) := by exact_mod_cast hr1
    simp only [shapeMask, roundedCovers, decide_eq_false_iff_not]
    rintro ⟨-, -, -, -, h1, -, -, -⟩
    have h2 := h1 ⟨by omega, by omega⟩
    push_cast at h2
    nlinarith [h2, hrz]
  · intro hmin
    have hr4 : 4 ≤ min w h / 5 := by omega
    have hrz : (4 : ℤ) ≤ ((min w h / 5 : ℕ) : ℤ) := by exact_mod_cast hr4
    have hrw : min w h / 5 ≤ w / 5 := Nat.div_le_div_right (min_le_left w h)
    have hrh : min w h / 5 ≤ h / 5 := Nat.div_le_div_right (min_le_right w h)
    have hcw : ((w - 1 : ℕ) : ℤ) = (w : ℤ) - 1 := by omega
    have hch : ((h - 1 : ℕ) : ℤ) = (h : ℤ) - 1 := by omega
    have hwr : ((min w h / 5 : ℕ) : ℤ) < (w : ℤ) - 1 := by
      have : min w h / 5 < w - 1 := by omega
      omega
    have hhr : ((min w h / 5 : ℕ) : ℤ) < (h : ℤ) - 1 := by
      have : min w h / 5 < h - 1 := by omega
      omega
    refine ⟨?_, ?_, ?_⟩
    · simp only [shapeMask, roundedCovers, decide_eq_false_iff_not, hcw]
      rintro ⟨-, -, -, -, -, h2, -, -⟩
      have h5 := h2 ⟨by omega, by omega⟩
      push_cast at h5
      nlinarith [h5, hrz]
    · simp only [shapeMask, roundedCovers, decide_eq_false_iff_not, hch]
      rintro ⟨-, -, -, -, -, -, h3, -⟩
      have h5 := h3 ⟨by omega, by omega⟩
      push_cast at h5
      nlinarith [h5, hrz]
    · simp only [shapeMask, roundedCovers, decide_eq_false_iff_not, hcw, hch]
      rintro ⟨-, -, -, -, -, -, -, h4⟩
      have h5 := h4 ⟨by omega, by omega⟩
      push_cast at h5
      nlinarith [h5, hrz, sq_nonneg (((min w h / 5 : ℕ) : ℤ) - 4)]

/-- Witness for C7 (amended) at a 20×20 mask. -/
theorem C7_witness :
    shapeMask Shape.square 20 20 3 3 = true ∧
    shapeMask Shape.circle 20 20 0 0 = false ∧
    shapeMask Shape.circle 20 20 19 19 = false ∧
    shapeMask Shape.roundedRect 20 20 0 0 = false ∧
    shapeMask Shape.roundedRect 20 20 19 0 = false := by
  have h := C7_shape_masks 20 20 (by decide) (by decide)
  exact ⟨h.1 3 3 (by decide) (by decide), h.2.1,
    (h.2.2.1 (by decide) (by decide)).2.2,
    h.2.2.2.2.1 (by decide),
    (h.2.2.2.2.2 (by decide)).1⟩

/- ------------------------------------------------------------------ -/
/- C4: the Radial Gradient background raises.                          -/
/- ------------------------------------------------------------------ -/

/-- C4: the claimed radial gradient disc is never produced.  The ring
loop draws ring `i` into the box `(i, i, gs-1-i, gs-1-i)`; every
`i > (gs-1)/2` makes that box inverted, and `draw.ellipse` raises
`ValueError` on it, so for every resized logo with max dimension ≥ 2
(buffer edge `gs = ⌊1.2 * maxdim⌋ ≥ 2`) the loop aborts
(`gradDiscLoop = none`), nothing is pasted, and `create_qr_image`
raises instead of returning an image (modelled: its image component is
`none`). -/
theorem C4_radial_gradient_crash (qr : ModuleGrid) (m b : ℕ) (light dark : Color)
    (lg : Img) (opts : LogoOptions) (S : ℕ) (dims : ℕ × ℕ)
    (hS : S = (qr.size + b * 2) * m)
    (hdims : dims = thumbnailDims lg.width lg.height ((⌊(S : ℚ) * opts.sizeFrac⌋).toNat))
    (hbg : opts.bgStyle = BgStyle.radialGradient)
    (hmax : 2 ≤ max dims.1 dims.2) :
    (∀ (f : ℕ → ℕ → Color) (i : ℕ),
        ((6 * max dims.1 dims.2 / 5 : ℕ) : ℤ) - 1 - (i : ℤ) < (i : ℤ) →
        gradRingStep light dark (6 * max dims.1 dims.2 / 5) (some f) i = none) ∧
    gradDiscLoop light dark (6 * max dims.1 dims.2 / 5) = none ∧
    (create_qr_image qr m b light dark (some lg) opts).1 = none := by
  have hgs : 2 ≤ 6 * max dims.1 dims.2 / 5 := by omega
  exact ⟨fun f i hi => gradRingStep_inverted light dark _ f i hi,
    gradDiscLoop_none light dark _ hgs,
    create_radial_none qr m b light dark lg opts S dims hS hdims hbg hgs⟩

/-- Witness for C4 at a concrete Radial Gradient render (image edge 4,
3×3 logo, so ring-buffer edge `⌊1.2*3⌋ = 3`): the ring loop aborts and
no image is returned. -/
theorem C4_witness :
    gradDiscLoop (255, 255, 255) (0, 0, 0) 3 = none ∧
    (create_qr_image ⟨1, fun _ _ => true⟩ 4 0 (255, 255, 255) (0, 0, 0)
        (some ⟨PixMode.rgb, 3, 3, fun _ _ => (5, 5, 5), fun _ _ => 255⟩)
        ⟨1, Shape.square, BgStyle.radialGradient, false⟩).1 = none := by
  have hd : ((3 : ℕ), (3 : ℕ))
      = thumbnailDims 3 3 ((⌊((4 : ℕ) : ℚ) * (1 : ℚ)⌋).toNat) := by
    rw [show ((⌊((4 : ℕ) : ℚ) * (1 : ℚ)⌋).toNat) = 4 by norm_num; rfl,
        thumbnailDims_noop 3 3 4 (by norm_num) (by norm_num)]
  have h := C4_radial_gradient_crash ⟨1, fun _ _ => true⟩ 4 0 (255, 255, 255) (0, 0, 0)
    ⟨PixMode.rgb, 3, 3, fun _ _ => (5, 5, 5), fun _ _ => 255⟩
    ⟨1, Shape.square, BgStyle.radialGradient, false⟩ 4 (3, 3) rfl hd rfl (by decide)
  exact ⟨h.2.1, h.2.2⟩

/- ------------------------------------------------------------------ -/
/- C10: in-place thumbnail mutation of the caller's logo.              -/
/- ------------------------------------------------------------------ -/

theorem roundAspectX_le (q aspect : ℚ) (y : ℕ) (hy : 1 ≤ y) (hqy : q ≤ (y : ℚ)) :
    roundAspectX q aspect y ≤ y := by
  have hcle : ⌈q⌉ ≤ (y : ℤ) := Int.ceil_le.mpr (by exact_mod_cast hqy)
  have hfle : ⌊q⌋ ≤ (y : ℤ) := le_trans (Int.floor_le_ceil q) hcle
  have h1 : ⌊q⌋.toNat ≤ y := Int.toNat_le.mpr hfle
  have h2 : ⌈q⌉.toNat ≤ y := Int.toNat_le.mpr hcle
  unfold roundAspectX
  refine max_le ?_ hy
  by_cases hA : |aspect - (⌊q⌋.toNat : ℚ) / y| ≤ |aspect - (⌈q⌉.toNat : ℚ) / y|
  · rw [if_pos hA]; exact h1
  · rw [if_neg hA]; exact h2

theorem roundAspectY_le (q aspect : ℚ) (x : ℕ) (hx : 1 ≤ x) (hqx : q ≤ (x : ℚ)) :
    roundAspectY q aspect x ≤ x := by
  have hcle : ⌈q⌉ ≤ (x : ℤ) := Int.ceil_le.mpr (by exact_mod_cast hqx)
  have hfle : ⌊q⌋ ≤ (x : ℤ) := le_trans (Int.floor_le_ceil q) hcle
  have h1 : ⌊q⌋.toNat ≤ x := Int.toNat_le.mpr hfle
  have h2 : ⌈q⌉.toNat ≤ x := Int.toNat_le.mpr hcle
  unfold roundAspectY
  refine max_le ?_ hx
  by_cases hA : (if ⌊q⌋.toNat = 0 then (0 : ℚ) else |aspect - (x : ℚ) / (⌊q⌋.toNat : ℚ)|)
      ≤ (if ⌈q⌉.toNat = 0 then (0 : ℚ) else |aspect - (x : ℚ) / (⌈q⌉.toNat : ℚ)|)
  · rw [if_pos hA]; exact h1
  · rw [if_neg hA]; exact h2

/-- When the logo's longer edge exceeds the bound, `thumbnail` changes
the dimensions, and the new longer edge is at most the bound. -/
theorem thumbnailDims_shrinks (w h lms : ℕ) (hw : 0 < w) (hh : 0 < h)
    (hlms : 1 ≤ lms) (hbig : lms < max w h) :
    thumbnailDims w h lms ≠ (w, h) ∧
    max (thumbnailDims w h lms).1 (thumbnailDims w h lms).2 ≤ lms := by
  have hguard : ¬(lms ≥ w ∧ lms ≥ h) := by omega
  have hlms0 : ((lms : ℚ)) ≠ 0 := by
    simp only [ne_eq, Nat.cast_eq_zero]; omega
  have hhq : (0 : ℚ) < (h : ℚ) := by exact_mod_cast hh
  have hwq : (0 : ℚ) < (w : ℚ) := by exact_mod_cast hw
  unfold thumbnailDims
  rw [if_neg hguard]
  by_cases hc : (lms : ℚ) / (lms : ℚ) ≥ (w : ℚ) / (h : ℚ)
  · rw [if_pos hc]
    rw [div_self hlms0] at hc
    have hwh : w ≤ h := by
      have := (div_le_one hhq).mp hc
      exact_mod_cast this
    have hhl : lms < h := by omega
    constructor
    · intro heq
      have := (Prod.ext_iff.mp heq).2
      omega
    · have hql : (lms : ℚ) * ((w : ℚ) / (h : ℚ)) ≤ (lms : ℚ) :=
        mul_le_of_le_one_right (by positivity) hc
      have hb := roundAspectX_le ((lms : ℚ) * ((w : ℚ) / (h : ℚ)))
        ((w : ℚ) / (h : ℚ)) lms hlms hql
      simp only [max_le_iff]
      exact ⟨hb, le_refl lms⟩
  · rw [if_neg hc]
    push_neg at hc
    rw [div_self hlms0] at hc
    have hwh : h < w := by
      have := (one_lt_div hhq).mp hc
      exact_mod_cast this
    have hwl : lms < w := by omega
    constructor
    · intro heq
      have := (Prod.ext_iff.mp heq).1
      omega
    · have h1le : (1 : ℚ) ≤ (w : ℚ) / (h : ℚ) := le_of_lt hc
      have hql : (lms : ℚ) / ((w : ℚ) / (h : ℚ)) ≤ (lms : ℚ) :=
        div_le_self (by positivity) h1le
      have hb := roundAspectY_le ((lms : ℚ) / ((w : ℚ) / (h : ℚ)))
        ((w : ℚ) / (h : ℚ)) lms hlms hql
      simp only [max_le_iff]
      exact ⟨le_refl lms, hb⟩

/-- C10: `create_qr_image` mutates its `logo_image` argument in place —
`thumbnail` (line 42) shrinks the caller's image so its longer edge is
at most `⌊image_size * sizeRatio⌋`, never upscaling — so whenever the
logo's longer edge exceeds that bound the caller's logo has different
dimensions after the call.  The model returns the mutated dimensions as
the second component; no other input is part of the mutable state. -/
theorem C10_thumbnail_mutation (qr : ModuleGrid) (m b : ℕ) (light dark : Color)
    (lg : Img) (opts : LogoOptions) (S lms : ℕ)
    (hS : S = (qr.size + b * 2) * m)
    (hlms : lms = (⌊(S : ℚ) * opts.sizeFrac⌋).toNat)
    (hw : 0 < lg.width) (hh : 0 < lg.height) (hlms1 : 1 ≤ lms)
    (hbig : lms < max lg.width lg.height) :
    (create_qr_image qr m b light dark (some lg) opts).2
        = some (thumbnailDims lg.width lg.height lms) ∧
    thumbnailDims lg.width lg.height lms ≠ (lg.width, lg.height) ∧
    max (thumbnailDims lg.width lg.height lms).1
        (thumbnailDims lg.width lg.height lms).2 ≤ lms ∧
    (∀ w' h' : ℕ, w' ≤ lms → h' ≤ lms → thumbnailDims w' h' lms = (w', h')) := by
  subst hS
  subst hlms
  refine ⟨rfl, ?_, ?_, ?_⟩
  · exact (thumbnailDims_shrinks lg.width lg.height _ hw hh hlms1 hbig).1
  · exact (thumbnailDims_shrinks lg.width lg.height _ hw hh hlms1 hbig).2
  · intro w' h' hw' hh'
    exact thumbnailDims_noop w' h' _ hw' hh'

/-- Witness for C10: a 1-module grid at module size 4 (image edge 4),
`sizeRatio = 1/2` (bound 2), logo 4×8: the caller's logo is resized in
place to 1×2. -/
theorem C10_witness :
    (create_qr_image ⟨1, fun _ _ => true⟩ 4 0 (255, 255, 255) (0, 0, 0)
        (some ⟨PixMode.rgb, 4, 8, fun _ _ => (0, 0, 0), fun _ _ => 255⟩)
        ⟨1/2, Shape.square, BgStyle.solid, false⟩).2 = some (1, 2) := by
  have h := C10_thumbnail_mutation ⟨1, fun _ _ => true⟩ 4 0 (255, 255, 255) (0, 0, 0)
    ⟨PixMode.rgb, 4, 8, fun _ _ => (0, 0, 0), fun _ _ => 255⟩
    ⟨1/2, Shape.square, BgStyle.solid, false⟩ 4 2
    (by norm_num) (by norm_num; rfl) (by norm_num) (by norm_num) (by norm_num) (by norm_num)
  rw [h.1]
  have ht : thumbnailDims 4 8 2 = (1, 2) := by
    unfold thumbnailDims roundAspectX
    norm_num

  rw [ht]

/- ------------------------------------------------------------------ -/
/- C8: composition order — background, then frame, then logo last.     -/
/- ------------------------------------------------------------------ -/

end QrGen
